import Mathlib

/-!
# Verification of the pmppt-agent orchestration core

A shallow embedding of the pmppt-agent Rust sources (`src/agent.rs`,
`src/agent/poller.rs`, `src/agent/protocol.rs`, `src/protocol_impl.rs`).

Modelling conventions:
* `u32` counters become `Nat` (none of the verified properties involve
  wrap-around, which would require 2^32 successful requests).
* Rust `Result<T, String>` becomes `Except String T`.
* Rust panics (`assert!`, `unreachable!`, `expect`) are modelled as the
  `Except.error` alternative of the functions that can execute them;
  OS-level file creation and thread spawning, which only panic on
  environment failure unrelated to the verified claims, are abstracted
  away as always succeeding.
* `HashMap<u32, V>` becomes an association list `List (Nat × V)`; the
  agent only ever inserts fresh keys and removes keys, for which the
  association list is an exact model.
* The OS outcomes observed by one dispatch step (glob resolution of a
  pattern, success or failure of `popen`/`join`, bytes read back from
  the foreground log files) are packaged into a `StepEnv` oracle.
-/

namespace Pmppt

/-! ## Protocol data model (`src/agent/protocol.rs`) -/

inductive SpawnMode where
  | Foreground
  | BackgroundWait
  | BackgroundKill
deriving DecidableEq, Repr

inductive PmpptRequest where
  | Poll (pattern : String)
  | Spawn (cmd : String) (args : List String) (mode : SpawnMode)
  | Finish
  | Abort
deriving DecidableEq, Repr

deriving instance DecidableEq for Except

/-- `type IdOrError = Result<u32, String>` -/
abbrev IdOrError := Except String Nat

/-- `type OutOrError = Result<(Vec<u8>, Vec<u8>), String>`; bytes as `List Nat`. -/
abbrev OutOrError := Except String (List Nat × List Nat)

inductive PmpptResponse where
  | Poll (r : IdOrError)
  | SpawnFg (r : OutOrError)
  | SpawnBg (r : IdOrError)
deriving DecidableEq, Repr

/-! ## Association-list model of `HashMap<u32, V>` -/

/-- `HashMap::get`-style lookup. -/
def lookupA {α : Type} (m : List (Nat × α)) (k : Nat) : Option α :=
  match m with
  | [] => none
  | (k', v) :: rest => if k' = k then some v else lookupA rest k

/-- `HashMap::remove`: returns the removed value (if any) and the map
without the first entry carrying key `k`.  With the no-duplicate-keys
invariant the agent maintains, this is exact. -/
def removeA {α : Type} (m : List (Nat × α)) (k : Nat) : Option α × List (Nat × α) :=
  match m with
  | [] => (none, [])
  | (k', v) :: rest =>
    if k' = k then (some v, rest)
    else
      let r := removeA rest k
      (r.1, (k', v) :: r.2)

/-- `HashMap::insert`: returns the previous value under `k` (if any) and
the updated map. -/
def insertA {α : Type} (m : List (Nat × α)) (k : Nat) (v : α) : Option α × List (Nat × α) :=
  match m with
  | [] => (none, [(k, v)])
  | (k', v') :: rest =>
    if k' = k then (some v', (k, v) :: rest)
    else
      let r := insertA rest k v
      (r.1, (k', v') :: r.2)

def keysA {α : Type} (m : List (Nat × α)) : List Nat := m.map Prod.fst

/-! ## Agent state (`src/agent.rs`)

`struct Poll { stop, thrd, name }`: the stop flag and the worker thread
are runtime handles whose behaviour is modelled separately by the poller
trace semantics; the state only records the display name.

`struct Proc { popen, wait4, name }`: the `Popen` OS handle is abstract;
the state records the `wait4` shutdown-policy flag and the name. -/

structure PollHandle where
  name : String
deriving DecidableEq, Repr

structure ProcHandle where
  wait4 : Bool
  name : String
deriving DecidableEq, Repr

structure AgentState where
  count : Nat
  outdir : String
  polls : List (Nat × PollHandle)
  procs : List (Nat × ProcHandle)
deriving DecidableEq, Repr

/-- `Agent::new` (the protocol object is threaded separately). -/
def AgentState.new (outdir : String) : AgentState :=
  { count := 0, outdir := outdir, polls := [], procs := [] }

/-- The OS outcomes one dispatch step can observe. -/
structure StepEnv where
  /-- `brace_expand` + `glob` resolution of a pattern to concrete paths. -/
  resolve : String → List String
  /-- outcome of `cmd.join()` for a foreground spawn (`Ok(status)` or error). -/
  fgJoin : Except String Unit
  /-- bytes read back from the `NNN-out.log` / `NNN-err.log` files. -/
  fgOut : List Nat × List Nat
  /-- outcome of `cmd.popen()` for a background spawn. -/
  bgPopen : Except String Unit

/-- `Agent::get_next_id`: advances the counter and returns the new value. -/
def get_next_id (s : AgentState) : Nat × AgentState :=
  (s.count + 1, { s with count := s.count + 1 })

/-- `Exec::cmd(&cmd).args(&args).to_cmdline_lossy()` (shell-quoting elided). -/
def cmdline (cmd : String) (args : List String) : String :=
  String.intercalate " " (cmd :: args)

/-- `Agent::spawn_poller`.  The thread spawn is abstracted; the
`assert!(res.is_none())` duplicate check is the `Except.error` case. -/
def spawn_poller (s : AgentState) (_paths : List String) (name : String) :
    Except String (IdOrError × AgentState) :=
  let p := get_next_id s
  let id := p.1
  let s := p.2
  let r := insertA s.polls id { name := name }
  match r.1 with
  | some _ => Except.error ("got duplicate poll/proc on " ++ toString id)
  | none => Except.ok (Except.ok id, { s with polls := r.2 })

/-- `Agent::spawn_process_foreground`.  Note: the id is allocated *before*
the fallible `cmd.join()` call. -/
def spawn_process_foreground (env : StepEnv) (s : AgentState)
    (_cmd : String) (_args : List String) : OutOrError × AgentState :=
  let p := get_next_id s
  let s := p.2
  match env.fgJoin with
  | Except.error e => (Except.error ("failed to spawn fg process: " ++ e), s)
  | Except.ok _ => (Except.ok env.fgOut, s)

/-- `Agent::spawn_process_background`.  Note: the id is allocated *before*
the fallible `cmd.popen()` call. -/
def spawn_process_background (env : StepEnv) (s : AgentState)
    (cmd : String) (args : List String) (wait4 : Bool) :
    Except String (IdOrError × AgentState) :=
  let p := get_next_id s
  let id := p.1
  let s := p.2
  match env.bgPopen with
  | Except.error e => Except.ok (Except.error ("failed to spawn bg process: " ++ e), s)
  | Except.ok _ =>
    let r := insertA s.procs id { wait4 := wait4, name := cmdline cmd args }
    match r.1 with
    | some _ => Except.error ("got duplicate poll/proc on " ++ toString id)
    | none => Except.ok (Except.ok id, { s with procs := r.2 })

/-- `Agent::spawn_process`. -/
def spawn_process (env : StepEnv) (s : AgentState)
    (cmd : String) (args : List String) (mode : SpawnMode) :
    Except String (PmpptResponse × AgentState) :=
  match mode with
  | SpawnMode.Foreground =>
    let r := spawn_process_foreground env s cmd args
    Except.ok (PmpptResponse.SpawnFg r.1, r.2)
  | SpawnMode.BackgroundWait =>
    (spawn_process_background env s cmd args true).map
      (fun r => (PmpptResponse.SpawnBg r.1, r.2))
  | SpawnMode.BackgroundKill =>
    (spawn_process_background env s cmd args false).map
      (fun r => (PmpptResponse.SpawnBg r.1, r.2))

/-- `Agent::handle_message`.  Returns the response that the Rust code
passes to `proto.send_response`, paired with the updated state; the
`unreachable!` arms for `Finish`/`Abort` are the `Except.error` case. -/
def handle_message (env : StepEnv) (s : AgentState) (msg : PmpptRequest) :
    Except String (PmpptResponse × AgentState) :=
  match msg with
  | PmpptRequest.Poll pattern =>
    let paths := env.resolve pattern
    if paths.isEmpty then
      Except.ok
        (PmpptResponse.Poll
          (Except.error ("got empty search result on expanding '" ++ pattern ++ "'")), s)
    else
      (spawn_poller s paths pattern).map (fun r => (PmpptResponse.Poll r.1, r.2))
  | PmpptRequest.Spawn cmd args mode => spawn_process env s cmd args mode
  | PmpptRequest.Finish => Except.error "Finish must be already processed outside"
  | PmpptRequest.Abort => Except.error "Abort must be already processed outside"

/-! ## Shutdown sequencer (`Agent::stop`)

The observable OS interactions of `stop` are recorded as a trace of
`StopEvent`s: `terminate i` is `proc.popen.terminate()`, `wait i` is
`proc.popen.wait()`, `signalStop i` is `poll.stop.store(true, Release)`
and `join i` is `poll.thrd.join()`.  The terminate/wait/join OS calls
themselves are abstracted as succeeding (their failure panics in the
source); the `unreachable!` for an id found in both maps and the final
`assert!`s on map emptiness are the `Except.error` case. -/

inductive StopEvent where
  | terminate (id : Nat)
  | wait (id : Nat)
  | signalStop (id : Nat)
  | join (id : Nat)
deriving DecidableEq, Repr

/-- The resource id an event concerns. -/
def StopEvent.rid : StopEvent → Nat
  | StopEvent.terminate i => i
  | StopEvent.wait i => i
  | StopEvent.signalStop i => i
  | StopEvent.join i => i

/-- The body of `for i in (1..=self.count).rev()`: `stopLoop ab n s`
processes ids `n, n-1, ..., 1` in that order. -/
def stopLoop (ab : Bool) : Nat → AgentState → Except String (List StopEvent × AgentState)
  | 0, s => Except.ok ([], s)
  | n + 1, s =>
    let rp := removeA s.procs (n + 1)
    let rl := removeA s.polls (n + 1)
    match rp.1, rl.1 with
    | some proc, none =>
      let evs := (if !proc.wait4 || ab then [StopEvent.terminate (n + 1)] else [])
        ++ [StopEvent.wait (n + 1)]
      (stopLoop ab n { s with procs := rp.2, polls := rl.2 }).map
        (fun r => (evs ++ r.1, r.2))
    | none, some _ =>
      let evs := [StopEvent.signalStop (n + 1), StopEvent.join (n + 1)]
      (stopLoop ab n { s with procs := rp.2, polls := rl.2 }).map
        (fun r => (evs ++ r.1, r.2))
    | none, none =>
      stopLoop ab n { s with procs := rp.2, polls := rl.2 }
    | some _, some _ =>
      Except.error ("found both process and poller for id=" ++ toString (n + 1))

/-- `Agent::stop`: the reverse-order teardown pass followed by the
`assert!(self.polls.is_empty()); assert!(self.procs.is_empty());` sanity
checks. -/
def Agent.stop (s : AgentState) (ab : Bool) : Except String (List StopEvent × AgentState) :=
  match stopLoop ab s.count s with
  | Except.error e => Except.error e
  | Except.ok r =>
    if r.2.polls.isEmpty then
      if r.2.procs.isEmpty then Except.ok r
      else Except.error "assertion failed: self.procs.is_empty()"
    else Except.error "assertion failed: self.polls.is_empty()"

/-! ## The serve loop (`Agent::serve`)

`recv_request` results are supplied as a list of `Option PmpptRequest`
paired with the `StepEnv` oracle for the corresponding dispatch;
`none` models a failed/malformed receive (`EndOfStream`). -/

inductive ServeEvent where
  | dispatch (msg : PmpptRequest)
  | send (resp : PmpptResponse)
deriving DecidableEq, Repr

/-- The `loop` of `Agent::serve`: consumes the receive results until a
terminal one, returning the `is_abnormal` flag, the dispatch/send trace
and the state at loop exit.  `Except.ok none` means the input list was
exhausted without a terminal message (the real loop would still be
blocked in `recv_request`). -/
def serveLoop (s : AgentState) :
    List (Option PmpptRequest × StepEnv) →
    Except String (Option (Bool × List ServeEvent × AgentState))
  | [] => Except.ok none
  | (none, _) :: _ => Except.ok (some (true, [], s))
  | (some PmpptRequest.Abort, _) :: _ => Except.ok (some (true, [], s))
  | (some PmpptRequest.Finish, _) :: _ => Except.ok (some (false, [], s))
  | (some msg, env) :: rest =>
    match handle_message env s msg with
    | Except.error e => Except.error e
    | Except.ok r =>
      (serveLoop r.2 rest).map
        (Option.map (fun t =>
          (t.1, ServeEvent.dispatch msg :: ServeEvent.send r.1 :: t.2.1, t.2.2)))

/-- `Agent::serve`: run the loop, then `self.stop(is_abnormal)`. -/
def Agent.serve (s : AgentState) (inputs : List (Option PmpptRequest × StepEnv)) :
    Except String (Option (Bool × List ServeEvent × List StopEvent × AgentState)) :=
  match serveLoop s inputs with
  | Except.error e => Except.error e
  | Except.ok none => Except.ok none
  | Except.ok (some t) =>
    match Agent.stop t.2.2 t.1 with
    | Except.error e => Except.error e
    | Except.ok r => Except.ok (some (t.1, t.2.1, r.1, r.2))

/-! ## Poller (`src/agent/poller.rs`)

The worker's interactions with the destination file are recorded as a
trace of `PollOp`s.  What the loop observes on each iteration — the
value of the atomic stop flag at the `while` check, the `Local::now()`
timestamp string and the momentary contents of each source file — is
packaged into a `TickEnv`; the loop is driven by the list of successive
`TickEnv`s.  An empty remaining list models a trace cut while the loop
is still running (so no final flush appears).  Source-file read errors
panic the worker in the source and are abstracted as successful reads. -/

/-- `const DEFAULT_SLEEP_TIME: Duration = Duration::from_millis(250)`,
in milliseconds. -/
def DEFAULT_SLEEP_TIME : Nat := 250

structure TickEnv where
  /-- value of `stop.load(Ordering::Acquire)` at this iteration's check. -/
  stopSet : Bool
  /-- `Local::now().to_rfc3339_opts(SecondsFormat::Micros, false)`. -/
  now : String
  /-- momentary contents of each source file (path → contents). -/
  contents : String → String

inductive PollOp where
  | write (data : String)
  | flush
  | sleep (ms : Nat)

/-- serde_json encoding of a `Duration` of `ms` milliseconds:
`{"secs":S,"nanos":N}`. -/
def durationJson (ms : Nat) : String :=
  "\x7b\"secs\":" ++ toString (ms / 1000)
    ++ ",\"nanos\":" ++ toString (ms % 1000 * 1000000) ++ "\x7d"

/-- `create_header`: `serde_json::to_string(&PollHeader { files, period })`
plus a trailing newline (JSON string escaping of the paths elided). -/
def create_header (files : List String) (ms : Nat) : String :=
  "\x7b\"files\":["
    ++ String.intercalate "," (files.map (fun p => "\"" ++ p ++ "\""))
    ++ "],\"period\":" ++ durationJson ms ++ "\x7d\n"

/-- The `outbuffer` built on one loop iteration: the timestamp line, the
contents of every source file concatenated in list order, and the final
delimiter newline. -/
def sampleRecord (srcs : List String) (t : TickEnv) : String :=
  t.now ++ "\n" ++ String.join (srcs.map t.contents) ++ "\n"

/-- The `while !stop.load(..)` loop of `poll_with_config`: each
iteration either observes the stop flag set and exits (flushing), or
writes one whole record with a single `write_all` and sleeps. -/
def pollLoop (srcs : List String) (ms : Nat) : List TickEnv → List PollOp
  | [] => []
  | t :: rest =>
    if t.stopSet then [PollOp.flush]
    else PollOp.write (sampleRecord srcs t) :: PollOp.sleep ms :: pollLoop srcs ms rest

/-- `poll_with_config`: store the header (write + flush), then run the
sampling loop. -/
def poll_with_config (srcs : List String) (ms : Nat) (ticks : List TickEnv) : List PollOp :=
  PollOp.write (create_header srcs ms) :: PollOp.flush :: pollLoop srcs ms ticks

/-- `poll`: `poll_with_config` with the default sleep time. -/
def poll (srcs : List String) (ticks : List TickEnv) : List PollOp :=
  poll_with_config srcs DEFAULT_SLEEP_TIME ticks

/-! ## Local replay transport (`src/protocol_impl.rs`, `LocalProtocol`)

The Rust `Vec<LocalRequest>` is popped from its end; `from_json`
reverses the parsed list so that `pop` yields the original order.  The
model keeps the pending requests with the next-to-pop element at the
head of the list, so `Vec::pop` is `head` and `Vec::push` is `cons`. -/

inductive ExecMode where
  | fg
  | bgwait
  | bgkill
deriving DecidableEq, Repr

def local_mode_to_agent : Option ExecMode → SpawnMode
  | none => SpawnMode.Foreground
  | some ExecMode.fg => SpawnMode.Foreground
  | some ExecMode.bgwait => SpawnMode.BackgroundWait
  | some ExecMode.bgkill => SpawnMode.BackgroundKill

inductive LocalRequest where
  | Poll (pattern : String)
  | Spawn (cmd : String) (args : Option (List String)) (mode : Option ExecMode)
  | Abort
  | Pause (prompt : Option String)
  /-- the `f64` seconds payload only feeds `thread::sleep`; it is kept
  abstract as an opaque tag. -/
  | Sleep (tag : Nat)
deriving DecidableEq, Repr

structure LocalProtocol where
  requests : List LocalRequest
  current : Option PmpptRequest
deriving DecidableEq, Repr

/-- The `loop` inside `LocalProtocol::recv_request`: pop requests,
executing `Sleep`/`Pause` locally (side effects elided), until a PMPPT
request can be produced; an exhausted list yields `Finish`. -/
def recvLoop : List LocalRequest → PmpptRequest × List LocalRequest
  | [] => (PmpptRequest.Finish, [])
  | LocalRequest.Poll pattern :: rest => (PmpptRequest.Poll pattern, rest)
  | LocalRequest.Spawn cmd args mode :: rest =>
    (PmpptRequest.Spawn cmd (args.getD []) (local_mode_to_agent mode), rest)
  | LocalRequest.Abort :: rest => (PmpptRequest.Abort, rest)
  | LocalRequest.Pause _ :: rest => recvLoop rest
  | LocalRequest.Sleep _ :: rest => recvLoop rest

/-- `LocalProtocol::recv_request`: never returns `None`; remembers the
produced request in `current`. -/
def LocalProtocol.recv_request (p : LocalProtocol) : Option PmpptRequest × LocalProtocol :=
  let r := recvLoop p.requests
  (some r.1, { requests := r.2, current := some r.1 })

/-- `LocalProtocol::send_response`: an error payload in any response
variant pushes an emulated `Abort` onto the request queue; the function
itself always succeeds. -/
def LocalProtocol.send_response (p : LocalProtocol) (resp : PmpptResponse) :
    Option Unit × LocalProtocol :=
  match resp with
  | PmpptResponse.Poll (Except.error _) =>
    (some (), { p with requests := LocalRequest.Abort :: p.requests })
  | PmpptResponse.Poll (Except.ok _) => (some (), p)
  | PmpptResponse.SpawnFg (Except.error _) =>
    (some (), { p with requests := LocalRequest.Abort :: p.requests })
  | PmpptResponse.SpawnFg (Except.ok _) => (some (), p)
  | PmpptResponse.SpawnBg (Except.error _) =>
    (some (), { p with requests := LocalRequest.Abort :: p.requests })
  | PmpptResponse.SpawnBg (Except.ok _) => (some (), p)

/-- Whether a response carries an error payload. -/
def responseIsError : PmpptResponse → Bool
  | PmpptResponse.Poll (Except.error _) => true
  | PmpptResponse.SpawnFg (Except.error _) => true
  | PmpptResponse.SpawnBg (Except.error _) => true
  | _ => false

/-! ## Invariants and derived notions -/

/-- Well-formedness of the agent bookkeeping: every tracked id is in
`1..=count`, no id is tracked as both a poller and a process, and
neither map holds duplicate keys. -/
def WF (s : AgentState) : Prop :=
  (∀ k ∈ keysA s.polls, 1 ≤ k ∧ k ≤ s.count) ∧
  (∀ k ∈ keysA s.procs, 1 ≤ k ∧ k ≤ s.count) ∧
  (∀ k ∈ keysA s.polls, k ∉ keysA s.procs) ∧
  (keysA s.polls).Nodup ∧
  (keysA s.procs).Nodup

instance (s : AgentState) : Decidable (WF s) := by
  unfold WF; infer_instance

/-- States reachable by an agent: the fresh state, closed under
successful dispatch steps (with arbitrary OS outcomes). -/
inductive Reachable : AgentState → Prop where
  | init (outdir : String) : Reachable (AgentState.new outdir)
  | step {env : StepEnv} {s : AgentState} {msg : PmpptRequest}
      {resp : PmpptResponse} {s' : AgentState} :
      Reachable s → handle_message env s msg = Except.ok (resp, s') → Reachable s'

/-- The teardown events `Agent::stop` performs for one id, as determined
by the pre-shutdown state. -/
def idEvents (ab : Bool) (s : AgentState) (i : Nat) : List StopEvent :=
  match lookupA s.procs i, lookupA s.polls i with
  | some proc, none =>
    (if !proc.wait4 || ab then [StopEvent.terminate i] else []) ++ [StopEvent.wait i]
  | none, some _ => [StopEvent.signalStop i, StopEvent.join i]
  | _, _ => []

/-- The whole teardown trace for ids `n, n-1, ..., 1` in that order. -/
def eventsDesc (ab : Bool) (s : AgentState) : Nat → List StopEvent
  | 0 => []
  | n + 1 => idEvents ab s (n + 1) ++ eventsDesc ab s n

/-! ## Concrete fixtures used to exercise the theorems -/

/-- An environment in which every pattern resolves to nothing and both
spawn flavours fail at the OS level. -/
def envAllFail : StepEnv :=
  { resolve := fun _ => [], fgJoin := Except.error "boom-fg", fgOut := ([], []),
    bgPopen := Except.error "boom-bg" }

/-- An environment in which everything succeeds. -/
def envAllOk : StepEnv :=
  { resolve := fun _ => ["/proc/stat"], fgJoin := Except.ok (), fgOut := ([104], []),
    bgPopen := Except.ok () }

/-- Three live pollers under ids 1, 2, 3. -/
def sThreePolls : AgentState :=
  { count := 3, outdir := "o",
    polls := [(1, { name := "p1" }), (2, { name := "p2" }), (3, { name := "p3" })],
    procs := [] }

/-- Two live background processes: id 1 with `wait4`, id 2 without. -/
def sTwoProcs : AgentState :=
  { count := 2, outdir := "o", polls := [],
    procs := [(1, { wait4 := true, name := "a" }), (2, { wait4 := false, name := "b" })] }

/-- A corrupt state tracking id 1 as both a poller and a process. -/
def sBothMaps : AgentState :=
  { count := 1, outdir := "o", polls := [(1, { name := "x" })],
    procs := [(1, { wait4 := false, name := "y" })] }

/-- A corrupt state with a tracked poller the countdown scan never
visits (`count` is 0 but id 1 is in the map). -/
def sLeftoverPoll : AgentState :=
  { count := 0, outdir := "o", polls := [(1, { name := "x" })], procs := [] }

/-- A poller tick with the stop flag clear. -/
def tickGo : TickEnv :=
  { stopSet := false, now := "2024-01-01T00:00:00.000000+00:00", contents := fun _ => "data\n" }

/-- A poller tick observing the stop flag set. -/
def tickHalt : TickEnv :=
  { stopSet := true, now := "2024-01-01T00:00:00.250000+00:00", contents := fun _ => "data\n" }

/-! ## Association-list lemmas -/

theorem lookupA_isSome_iff_mem {α : Type} (m : List (Nat × α)) (k : Nat) :
    (lookupA m k).isSome ↔ k ∈ keysA m := by
  induction m with
  | nil => simp [lookupA, keysA]
  | cons hd tl ih =>
    obtain ⟨k', v⟩ := hd
    by_cases h : k' = k
    · subst h; simp [lookupA, keysA]
    · simp [lookupA, keysA, h, ih]
      exact fun hk => (h hk.symm).elim

theorem lookupA_eq_none_iff {α : Type} (m : List (Nat × α)) (k : Nat) :
    lookupA m k = none ↔ k ∉ keysA m := by
  rw [← lookupA_isSome_iff_mem, Option.not_isSome_iff_eq_none]

theorem mem_keysA_of_lookupA {α : Type} {m : List (Nat × α)} {k : Nat} {v : α}
    (h : lookupA m k = some v) : k ∈ keysA m := by
  rw [← lookupA_isSome_iff_mem, h]; rfl

theorem removeA_fst {α : Type} (m : List (Nat × α)) (k : Nat) :
    (removeA m k).1 = lookupA m k := by
  induction m with
  | nil => rfl
  | cons hd tl ih =>
    obtain ⟨k', v⟩ := hd
    by_cases h : k' = k
    · simp [removeA, lookupA, h]
    · simp [removeA, lookupA, h, ih]

theorem removeA_snd_sublist {α : Type} (m : List (Nat × α)) (k : Nat) :
    (removeA m k).2.Sublist m := by
  induction m with
  | nil => simp [removeA]
  | cons hd tl ih =>
    obtain ⟨k', v⟩ := hd
    by_cases h : k' = k
    · simp [removeA, h]
    · simpa [removeA, h] using ih.cons₂ (k', v)

theorem removeA_snd_of_not_mem {α : Type} {m : List (Nat × α)} {k : Nat}
    (h : k ∉ keysA m) : (removeA m k).2 = m := by
  induction m with
  | nil => rfl
  | cons hd tl ih =>
    obtain ⟨k', v⟩ := hd
    simp only [keysA, List.map_cons, List.mem_cons] at h
    push_neg at h
    simp [removeA, Ne.symm h.1, ih (by simpa [keysA] using h.2)]

theorem lookupA_removeA_ne {α : Type} (m : List (Nat × α)) (k j : Nat) (h : j ≠ k) :
    lookupA (removeA m k).2 j = lookupA m j := by
  induction m with
  | nil => rfl
  | cons hd tl ih =>
    obtain ⟨k', v⟩ := hd
    by_cases hk : k' = k
    · subst hk
      simp [removeA, lookupA, Ne.symm h]
    · by_cases hj : k' = j
      · subst hj; simp [removeA, lookupA, hk]
      · simp [removeA, lookupA, hk, hj, ih]

theorem not_mem_keysA_removeA {α : Type} {m : List (Nat × α)} {k : Nat}
    (hnd : (keysA m).Nodup) : k ∉ keysA (removeA m k).2 := by
  induction m with
  | nil => simp [removeA, keysA]
  | cons hd tl ih =>
    obtain ⟨k', v⟩ := hd
    simp only [keysA, List.map_cons, List.nodup_cons] at hnd
    by_cases h : k' = k
    · subst h
      simpa [removeA, keysA] using hnd.1
    · simp only [removeA, h, if_false]
      simp only [keysA, List.map_cons, List.mem_cons]
      push_neg
      refine ⟨fun hk => h hk.symm, ?_⟩
      simpa [keysA] using ih hnd.2

theorem insertA_of_not_mem {α : Type} {m : List (Nat × α)} {k : Nat} (v : α)
    (h : k ∉ keysA m) : insertA m k v = (none, m ++ [(k, v)]) := by
  induction m with
  | nil => rfl
  | cons hd tl ih =>
    obtain ⟨k', v'⟩ := hd
    simp only [keysA, List.map_cons, List.mem_cons] at h
    push_neg at h
    simp [insertA, h.1.symm, ih (by simpa [keysA] using h.2)]

theorem keysA_append {α : Type} (m₁ m₂ : List (Nat × α)) :
    keysA (m₁ ++ m₂) = keysA m₁ ++ keysA m₂ := by
  simp [keysA]

theorem keysA_removeA_subset {α : Type} (m : List (Nat × α)) (k : Nat) :
    keysA (removeA m k).2 ⊆ keysA m := by
  simpa [keysA] using ((removeA_snd_sublist m k).map Prod.fst).subset

theorem keysA_removeA_nodup {α : Type} {m : List (Nat × α)} (k : Nat)
    (h : (keysA m).Nodup) : (keysA (removeA m k).2).Nodup := by
  simpa [keysA] using ((removeA_snd_sublist m k).map Prod.fst).nodup h

/-! ## Characterization of the shutdown pass -/

theorem idEvents_congr {ab : Bool} {s₁ s₂ : AgentState} {i : Nat}
    (hp : lookupA s₁.procs i = lookupA s₂.procs i)
    (hl : lookupA s₁.polls i = lookupA s₂.polls i) :
    idEvents ab s₁ i = idEvents ab s₂ i := by
  simp [idEvents, hp, hl]

theorem eventsDesc_congr {ab : Bool} {s₁ s₂ : AgentState} :
    ∀ n : Nat, (∀ i, 1 ≤ i → i ≤ n → idEvents ab s₁ i = idEvents ab s₂ i) →
      eventsDesc ab s₁ n = eventsDesc ab s₂ n
  | 0, _ => rfl
  | n + 1, h => by
    simp only [eventsDesc]
    rw [h (n + 1) (by omega) (le_refl _),
      eventsDesc_congr n (fun i h1 h2 => h i h1 (by omega))]

/-- The master lemma: if every tracked id lies in `1..=n`, the keys are
duplicate-free and no id is tracked twice, then the countdown loop of
`Agent::stop` succeeds, produces exactly the per-id teardown events for
`n, n-1, ..., 1`, and leaves both maps empty. -/
theorem stopLoop_spec (ab : Bool) : ∀ (n : Nat) (s : AgentState),
    (∀ k ∈ keysA s.polls, 1 ≤ k ∧ k ≤ n) →
    (∀ k ∈ keysA s.procs, 1 ≤ k ∧ k ≤ n) →
    (∀ k ∈ keysA s.polls, k ∉ keysA s.procs) →
    (keysA s.polls).Nodup →
    (keysA s.procs).Nodup →
    stopLoop ab n s = Except.ok (eventsDesc ab s n, { s with polls := [], procs := [] })
  | 0, s, hpo, hpr, _, _, _ => by
    have h1 : s.polls = [] := by
      have hk : keysA s.polls = [] := List.eq_nil_iff_forall_not_mem.mpr
        (fun x hx => by have := hpo x hx; omega)
      simpa [keysA] using hk
    have h2 : s.procs = [] := by
      have hk : keysA s.procs = [] := List.eq_nil_iff_forall_not_mem.mpr
        (fun x hx => by have := hpr x hx; omega)
      simpa [keysA] using hk
    rw [show ({ s with polls := [], procs := [] } : AgentState) = s by
      cases s; simp_all]
    rfl
  | n + 1, s, hpo, hpr, hdisj, hndl, hndr => by
    cases hp : lookupA s.procs (n + 1) with
    | some proc =>
      cases hl : lookupA s.polls (n + 1) with
      | some poll =>
        exact absurd (mem_keysA_of_lookupA hp)
          (hdisj (n + 1) (mem_keysA_of_lookupA hl))
      | none =>
        -- process branch: terminate (when policy says so), then wait
        have hlmem : (n + 1) ∉ keysA s.polls := (lookupA_eq_none_iff _ _).mp hl
        have hlr : (removeA s.polls (n + 1)).2 = s.polls := removeA_snd_of_not_mem hlmem
        have hih := stopLoop_spec ab n
          { s with procs := (removeA s.procs (n + 1)).2, polls := (removeA s.polls (n + 1)).2 }
          (by
            rw [hlr]
            intro k hk
            have hb := hpo k hk
            have hne : k ≠ n + 1 := fun he => hlmem (he ▸ hk)
            omega)
          (by
            intro k hk
            have hmem : k ∈ keysA s.procs := keysA_removeA_subset _ _ hk
            have hb := hpr k hmem
            have hne : k ≠ n + 1 := fun he => not_mem_keysA_removeA hndr (he ▸ hk)
            omega)
          (by
            rw [hlr]
            intro k hk hk'
            exact hdisj k hk (keysA_removeA_subset _ _ hk'))
          (by rw [hlr]; exact hndl)
          (keysA_removeA_nodup _ hndr)
        have hcong : eventsDesc ab
            { s with procs := (removeA s.procs (n + 1)).2,
                     polls := (removeA s.polls (n + 1)).2 } n = eventsDesc ab s n := by
          apply eventsDesc_congr
          intro i h1 h2
          exact idEvents_congr
            (lookupA_removeA_ne _ _ _ (by omega))
            (by rw [hlr])
        simp only [stopLoop, removeA_fst, hp, hl, hih, hcong, Except.map]
        simp [eventsDesc, idEvents, hp, hl]
    | none =>
      cases hl : lookupA s.polls (n + 1) with
      | some poll =>
        -- poller branch: signal the stop flag, then join the worker
        have hpmem : (n + 1) ∉ keysA s.procs := (lookupA_eq_none_iff _ _).mp hp
        have hpr' : (removeA s.procs (n + 1)).2 = s.procs := removeA_snd_of_not_mem hpmem
        have hih := stopLoop_spec ab n
          { s with procs := (removeA s.procs (n + 1)).2, polls := (removeA s.polls (n + 1)).2 }
          (by
            intro k hk
            have hmem : k ∈ keysA s.polls := keysA_removeA_subset _ _ hk
            have hb := hpo k hmem
            have hne : k ≠ n + 1 := fun he => not_mem_keysA_removeA hndl (he ▸ hk)
            omega)
          (by
            rw [hpr']
            intro k hk
            have hb := hpr k hk
            have hne : k ≠ n + 1 := fun he => hpmem (he ▸ hk)
            omega)
          (by
            rw [hpr']
            intro k hk
            exact hdisj k (keysA_removeA_subset _ _ hk))
          (keysA_removeA_nodup _ hndl)
          (by rw [hpr']; exact hndr)
        have hcong : eventsDesc ab
            { s with procs := (removeA s.procs (n + 1)).2,
                     polls := (removeA s.polls (n + 1)).2 } n = eventsDesc ab s n := by
          apply eventsDesc_congr
          intro i h1 h2
          exact idEvents_congr
            (by rw [hpr'])
            (lookupA_removeA_ne _ _ _ (by omega))
        simp only [stopLoop, removeA_fst, hp, hl, hih, hcong, Except.map]
        simp [eventsDesc, idEvents, hp, hl]
      | none =>
        -- neither present: completed foreground spawn, nothing to do
        have hlmem : (n + 1) ∉ keysA s.polls := (lookupA_eq_none_iff _ _).mp hl
        have hpmem : (n + 1) ∉ keysA s.procs := (lookupA_eq_none_iff _ _).mp hp
        have hlr : (removeA s.polls (n + 1)).2 = s.polls := removeA_snd_of_not_mem hlmem
        have hpr' : (removeA s.procs (n + 1)).2 = s.procs := removeA_snd_of_not_mem hpmem
        have hih := stopLoop_spec ab n s
          (by
            intro k hk
            have hb := hpo k hk
            have hne : k ≠ n + 1 := fun he => hlmem (he ▸ hk)
            omega)
          (by
            intro k hk
            have hb := hpr k hk
            have hne : k ≠ n + 1 := fun he => hpmem (he ▸ hk)
            omega)
          hdisj hndl hndr
        simp only [stopLoop, removeA_fst, hp, hl, hlr, hpr']
        rw [show ({ s with procs := s.procs, polls := s.polls } : AgentState) = s from rfl]
        rw [hih]
        simp [eventsDesc, idEvents, hp, hl]

/-- `Agent::stop` on a well-formed state: the reverse pass succeeds,
performs exactly the per-id teardown events for `count, ..., 1`, empties
both maps, and the final `assert!`s pass. -/
theorem stop_spec {s : AgentState} (ab : Bool) (hwf : WF s) :
    Agent.stop s ab =
      Except.ok (eventsDesc ab s s.count, { s with polls := [], procs := [] }) := by
  obtain ⟨hpo, hpr, hdisj, hndl, hndr⟩ := hwf
  have h := stopLoop_spec ab s.count s hpo hpr hdisj hndl hndr
  simp [Agent.stop, h]

theorem rid_of_mem_idEvents {ab : Bool} {s : AgentState} {i : Nat} {e : StopEvent}
    (h : e ∈ idEvents ab s i) : e.rid = i := by
  cases hp : lookupA s.procs i with
  | some proc =>
    cases hl : lookupA s.polls i with
    | some poll => simp [idEvents, hp, hl] at h
    | none =>
      simp only [idEvents, hp, hl] at h
      rcases List.mem_append.mp h with h' | h'
      · split at h' <;> simp_all [StopEvent.rid]
      · simp_all [StopEvent.rid]
  | none =>
    cases hl : lookupA s.polls i with
    | some poll =>
      simp only [idEvents, hp, hl] at h
      rcases List.mem_cons.mp h with h' | h' <;> simp_all [StopEvent.rid]
    | none => simp [idEvents, hp, hl] at h

theorem mem_eventsDesc {ab : Bool} {s : AgentState} {e : StopEvent} :
    ∀ {n : Nat}, e ∈ eventsDesc ab s n ↔ ∃ i, 1 ≤ i ∧ i ≤ n ∧ e ∈ idEvents ab s i := by
  intro n
  induction n with
  | zero =>
    simp only [eventsDesc, List.not_mem_nil, false_iff]
    rintro ⟨i, h1, h2, _⟩; omega
  | succ n ih =>
    simp only [eventsDesc, List.mem_append, ih]
    constructor
    · rintro (h | ⟨i, h1, h2, h3⟩)
      · exact ⟨n + 1, by omega, le_refl _, h⟩
      · exact ⟨i, h1, by omega, h3⟩
    · rintro ⟨i, h1, h2, h3⟩
      rcases Nat.lt_or_ge i (n + 1) with hlt | hge
      · exact Or.inr ⟨i, h1, by omega, h3⟩
      · have : i = n + 1 := by omega
        exact Or.inl (this ▸ h3)

theorem rid_le_of_mem_eventsDesc {ab : Bool} {s : AgentState} {e : StopEvent} {n : Nat}
    (h : e ∈ eventsDesc ab s n) : 1 ≤ e.rid ∧ e.rid ≤ n := by
  obtain ⟨i, h1, h2, h3⟩ := mem_eventsDesc.mp h
  have := rid_of_mem_idEvents h3
  omega

theorem idEvents_rid_pairwise (ab : Bool) (s : AgentState) (i : Nat) :
    List.Pairwise (fun a b => StopEvent.rid b ≤ StopEvent.rid a) (idEvents ab s i) := by
  apply List.Pairwise.imp_of_mem (R := fun a b => a.rid = i ∧ b.rid = i)
  · rintro a b _ _ ⟨ha, hb⟩; omega
  · apply List.pairwise_iff_forall_sublist.mpr
    intro a b hsub
    have hmem := hsub.subset
    exact ⟨rid_of_mem_idEvents (hmem (by simp)),
      rid_of_mem_idEvents (hmem (by simp))⟩

theorem eventsDesc_rid_pairwise (ab : Bool) (s : AgentState) :
    ∀ n : Nat, List.Pairwise (fun a b => StopEvent.rid b ≤ StopEvent.rid a) (eventsDesc ab s n)
  | 0 => List.Pairwise.nil
  | n + 1 => by
    simp only [eventsDesc]
    rw [List.pairwise_append]
    refine ⟨idEvents_rid_pairwise ab s (n + 1), eventsDesc_rid_pairwise ab s n, ?_⟩
    intro a ha b hb
    have h1 := rid_of_mem_idEvents ha
    have h2 := rid_le_of_mem_eventsDesc hb
    omega

/-- The teardown events for one id in range form one contiguous block of
the whole trace: the loop handles each id completely before moving to
the next. -/
theorem eventsDesc_block (ab : Bool) (s : AgentState) (i : Nat) :
    ∀ n : Nat, 1 ≤ i → i ≤ n →
      ∃ pre post, eventsDesc ab s n = pre ++ idEvents ab s i ++ post
  | 0, _, h2 => by omega
  | n + 1, h1, h2 => by
    by_cases he : i = n + 1
    · subst he
      exact ⟨[], eventsDesc ab s n, by simp [eventsDesc]⟩
    · obtain ⟨pre, post, hpp⟩ := eventsDesc_block ab s i n h1 (by omega)
      exact ⟨idEvents ab s (n + 1) ++ pre, post, by simp [eventsDesc, hpp]⟩

/-! ## Preservation of the bookkeeping invariant -/

theorem WF_new (outdir : String) : WF (AgentState.new outdir) := by
  refine ⟨?_, ?_, ?_, ?_, ?_⟩ <;> simp [AgentState.new, keysA]

theorem WF_bump {s : AgentState} (hwf : WF s) : WF { s with count := s.count + 1 } := by
  obtain ⟨hpo, hpr, hdisj, hndl, hndr⟩ := hwf
  refine ⟨?_, ?_, hdisj, hndl, hndr⟩
  · intro k hk
    show 1 ≤ k ∧ k ≤ s.count + 1
    have := hpo k hk; omega
  · intro k hk
    show 1 ≤ k ∧ k ≤ s.count + 1
    have := hpr k hk; omega

theorem WF_insert_poll {s : AgentState} (hwf : WF s) (v : PollHandle) :
    WF { s with count := s.count + 1, polls := s.polls ++ [(s.count + 1, v)] } := by
  obtain ⟨hpo, hpr, hdisj, hndl, hndr⟩ := hwf
  have hkeys : keysA (s.polls ++ [(s.count + 1, v)]) = keysA s.polls ++ [s.count + 1] :=
    keysA_append ..
  refine ⟨?_, ?_, ?_, ?_, hndr⟩
  · intro k hk
    show 1 ≤ k ∧ k ≤ s.count + 1
    rw [hkeys] at hk
    rcases List.mem_append.mp hk with h | h
    · have := hpo k h; omega
    · simp at h; omega
  · intro k hk
    show 1 ≤ k ∧ k ≤ s.count + 1
    have := hpr k hk; omega
  · intro k hk
    show k ∉ keysA s.procs
    rw [hkeys] at hk
    rcases List.mem_append.mp hk with h | h
    · exact hdisj k h
    · simp at h
      subst h
      intro hm
      have := hpr _ hm
      omega
  · show (keysA (s.polls ++ [(s.count + 1, v)])).Nodup
    rw [hkeys, List.nodup_append]
    refine ⟨hndl, List.nodup_singleton _, ?_⟩
    intro a ha hb
    simp at hb
    subst hb
    have := hpo _ ha
    omega

theorem WF_insert_proc {s : AgentState} (hwf : WF s) (v : ProcHandle) :
    WF { s with count := s.count + 1, procs := s.procs ++ [(s.count + 1, v)] } := by
  obtain ⟨hpo, hpr, hdisj, hndl, hndr⟩ := hwf
  have hkeys : keysA (s.procs ++ [(s.count + 1, v)]) = keysA s.procs ++ [s.count + 1] :=
    keysA_append ..
  refine ⟨?_, ?_, ?_, hndl, ?_⟩
  · intro k hk
    show 1 ≤ k ∧ k ≤ s.count + 1
    have := hpo k hk; omega
  · intro k hk
    show 1 ≤ k ∧ k ≤ s.count + 1
    rw [hkeys] at hk
    rcases List.mem_append.mp hk with h | h
    · have := hpr k h; omega
    · simp at h; omega
  · intro k hk
    show k ∉ keysA (s.procs ++ [(s.count + 1, v)])
    rw [hkeys]
    intro hm
    rcases List.mem_append.mp hm with h | h
    · exact hdisj k hk h
    · simp at h
      subst h
      have := hpo _ hk
      omega
  · show (keysA (s.procs ++ [(s.count + 1, v)])).Nodup
    rw [hkeys, List.nodup_append]
    refine ⟨hndr, List.nodup_singleton _, ?_⟩
    intro a ha hb
    simp at hb
    subst hb
    have := hpr _ ha
    omega

/-! ### Evaluation lemmas for one dispatch step -/

theorem handle_message_poll_empty {env : StepEnv} {s : AgentState} {pattern : String}
    (hemp : (env.resolve pattern).isEmpty = true) :
    handle_message env s (PmpptRequest.Poll pattern) =
      Except.ok
        (PmpptResponse.Poll
          (Except.error ("got empty search result on expanding '" ++ pattern ++ "'")), s) := by
  simp [handle_message, hemp]

theorem handle_message_poll_nonempty {env : StepEnv} {s : AgentState} {pattern : String}
    (hne : (env.resolve pattern).isEmpty = false)
    (hfresh : s.count + 1 ∉ keysA s.polls) :
    handle_message env s (PmpptRequest.Poll pattern) =
      Except.ok (PmpptResponse.Poll (Except.ok (s.count + 1)),
        { s with count := s.count + 1,
                 polls := s.polls ++ [(s.count + 1, { name := pattern })] }) := by
  have hins := insertA_of_not_mem (m := s.polls) (k := s.count + 1) { name := pattern } hfresh
  simp only [handle_message, hne, Bool.false_eq_true, if_false, spawn_poller, get_next_id]
  rw [show ({ s with count := s.count + 1 } : AgentState).polls = s.polls from rfl, hins]
  rfl

theorem handle_message_fg {env : StepEnv} {s : AgentState} {cmd : String} {args : List String} :
    handle_message env s (PmpptRequest.Spawn cmd args SpawnMode.Foreground) =
      Except.ok (PmpptResponse.SpawnFg
        (match env.fgJoin with
         | Except.error e => Except.error ("failed to spawn fg process: " ++ e)
         | Except.ok _ => Except.ok env.fgOut),
        { s with count := s.count + 1 }) := by
  cases henv : env.fgJoin <;>
    simp [handle_message, spawn_process, spawn_process_foreground, get_next_id, henv]

theorem bg_popen_err {env : StepEnv} {s : AgentState} {cmd : String} {args : List String}
    {w : Bool} {e : String} (henv : env.bgPopen = Except.error e) :
    spawn_process_background env s cmd args w =
      Except.ok (Except.error ("failed to spawn bg process: " ++ e),
        { s with count := s.count + 1 }) := by
  simp [spawn_process_background, get_next_id, henv]

theorem bg_popen_ok {env : StepEnv} {s : AgentState} {cmd : String} {args : List String}
    {w : Bool} {u : Unit} (henv : env.bgPopen = Except.ok u)
    (hfresh : s.count + 1 ∉ keysA s.procs) :
    spawn_process_background env s cmd args w =
      Except.ok (Except.ok (s.count + 1),
        { s with count := s.count + 1,
                 procs := s.procs ++ [(s.count + 1, { wait4 := w, name := cmdline cmd args })] }) := by
  have hins := insertA_of_not_mem (m := s.procs) (k := s.count + 1)
    { wait4 := w, name := cmdline cmd args } hfresh
  simp only [spawn_process_background, get_next_id, henv]
  rw [show ({ s with count := s.count + 1 } : AgentState).procs = s.procs from rfl, hins]

theorem handle_message_bgwait {env : StepEnv} {s : AgentState}
    {cmd : String} {args : List String} :
    handle_message env s (PmpptRequest.Spawn cmd args SpawnMode.BackgroundWait) =
      (spawn_process_background env s cmd args true).map
        (fun r => (PmpptResponse.SpawnBg r.1, r.2)) := rfl

theorem handle_message_bgkill {env : StepEnv} {s : AgentState}
    {cmd : String} {args : List String} :
    handle_message env s (PmpptRequest.Spawn cmd args SpawnMode.BackgroundKill) =
      (spawn_process_background env s cmd args false).map
        (fun r => (PmpptResponse.SpawnBg r.1, r.2)) := rfl

theorem WF_handle_message {env : StepEnv} {s : AgentState} {msg : PmpptRequest}
    {resp : PmpptResponse} {s' : AgentState}
    (hwf : WF s) (h : handle_message env s msg = Except.ok (resp, s')) : WF s' := by
  have hfreshl : s.count + 1 ∉ keysA s.polls := fun hm => by
    have := hwf.1 _ hm; omega
  have hfreshr : s.count + 1 ∉ keysA s.procs := fun hm => by
    have := hwf.2.1 _ hm; omega
  cases msg with
  | Poll pattern =>
    cases hemp : (env.resolve pattern).isEmpty with
    | true =>
      rw [handle_message_poll_empty hemp] at h
      simp only [Except.ok.injEq, Prod.mk.injEq] at h
      exact h.2 ▸ hwf
    | false =>
      rw [handle_message_poll_nonempty hemp hfreshl] at h
      simp only [Except.ok.injEq, Prod.mk.injEq] at h
      exact h.2 ▸ WF_insert_poll hwf _
  | Spawn cmd args mode =>
    cases mode with
    | Foreground =>
      rw [handle_message_fg] at h
      simp only [Except.ok.injEq, Prod.mk.injEq] at h
      exact h.2 ▸ WF_bump hwf
    | BackgroundWait =>
      rw [handle_message_bgwait] at h
      cases henv : env.bgPopen with
      | error e =>
        rw [bg_popen_err henv] at h
        simp only [Except.map, Except.ok.injEq, Prod.mk.injEq] at h
        exact h.2 ▸ WF_bump hwf
      | ok u =>
        rw [bg_popen_ok henv hfreshr] at h
        simp only [Except.map, Except.ok.injEq, Prod.mk.injEq] at h
        exact h.2 ▸ WF_insert_proc hwf _
    | BackgroundKill =>
      rw [handle_message_bgkill] at h
      cases henv : env.bgPopen with
      | error e =>
        rw [bg_popen_err henv] at h
        simp only [Except.map, Except.ok.injEq, Prod.mk.injEq] at h
        exact h.2 ▸ WF_bump hwf
      | ok u =>
        rw [bg_popen_ok henv hfreshr] at h
        simp only [Except.map, Except.ok.injEq, Prod.mk.injEq] at h
        exact h.2 ▸ WF_insert_proc hwf _
  | Finish => simp [handle_message] at h
  | Abort => simp [handle_message] at h

/-- Every reachable agent state satisfies the bookkeeping invariant. -/
theorem WF_of_Reachable {s : AgentState} (h : Reachable s) : WF s := by
  induction h with
  | init outdir => exact WF_new outdir
  | step _ hm ih => exact WF_handle_message ih hm

/-! ## Serve-loop lemmas -/

theorem serveLoop_cons_nonterminal {s : AgentState} {env : StepEnv} {msg : PmpptRequest}
    {rest : List (Option PmpptRequest × StepEnv)}
    (h1 : msg ≠ PmpptRequest.Finish) (h2 : msg ≠ PmpptRequest.Abort) :
    serveLoop s ((some msg, env) :: rest) =
      match handle_message env s msg with
      | Except.error e => Except.error e
      | Except.ok r =>
        (serveLoop r.2 rest).map
          (Option.map (fun t =>
            (t.1, ServeEvent.dispatch msg :: ServeEvent.send r.1 :: t.2.1, t.2.2))) := by
  cases msg with
  | Poll pattern => rfl
  | Spawn cmd args mode => rfl
  | Finish => exact absurd rfl h1
  | Abort => exact absurd rfl h2

theorem serveLoop_no_terminal_dispatch {s : AgentState}
    {inputs : List (Option PmpptRequest × StepEnv)} {b : Bool} {evs : List ServeEvent}
    {s' : AgentState} (h : serveLoop s inputs = Except.ok (some (b, evs, s'))) :
    ∀ m, ServeEvent.dispatch m ∈ evs →
      m ≠ PmpptRequest.Finish ∧ m ≠ PmpptRequest.Abort := by
  induction inputs generalizing s b evs s' with
  | nil => simp [serveLoop] at h
  | cons hd tl ih =>
    obtain ⟨req, env⟩ := hd
    cases req with
    | none =>
      simp only [serveLoop, Except.ok.injEq, Option.some.injEq, Prod.mk.injEq] at h
      rw [← h.2.1]
      simp
    | some msg =>
      cases msg with
      | Finish =>
        simp only [serveLoop, Except.ok.injEq, Option.some.injEq, Prod.mk.injEq] at h
        rw [← h.2.1]
        simp
      | Abort =>
        simp only [serveLoop, Except.ok.injEq, Option.some.injEq, Prod.mk.injEq] at h
        rw [← h.2.1]
        simp
      | Poll pattern =>
        rw [serveLoop_cons_nonterminal (by simp) (by simp)] at h
        cases hm : handle_message env s (PmpptRequest.Poll pattern) with
        | error e => rw [hm] at h; simp at h
        | ok r =>
          rw [hm] at h
          dsimp only at h
          cases hsl : serveLoop r.2 tl with
          | error e => rw [hsl] at h; simp [Except.map] at h
          | ok o =>
            cases o with
            | none => rw [hsl] at h; simp [Except.map] at h
            | some t =>
              rw [hsl] at h
              simp only [Except.map, Option.map, Except.ok.injEq,
                Option.some.injEq, Prod.mk.injEq] at h
              rw [← h.2.1]
              intro m hm'
              rcases List.mem_cons.mp hm' with he | he
              · cases he; exact ⟨by simp, by simp⟩
              · rcases List.mem_cons.mp he with he' | he'
                · simp at he'
                · exact ih (by rw [hsl]) m he'
      | Spawn cmd args mode =>
        rw [serveLoop_cons_nonterminal (by simp) (by simp)] at h
        cases hm : handle_message env s (PmpptRequest.Spawn cmd args mode) with
        | error e => rw [hm] at h; simp at h
        | ok r =>
          rw [hm] at h
          dsimp only at h
          cases hsl : serveLoop r.2 tl with
          | error e => rw [hsl] at h; simp [Except.map] at h
          | ok o =>
            cases o with
            | none => rw [hsl] at h; simp [Except.map] at h
            | some t =>
              rw [hsl] at h
              simp only [Except.map, Option.map, Except.ok.injEq,
                Option.some.injEq, Prod.mk.injEq] at h
              rw [← h.2.1]
              intro m hm'
              rcases List.mem_cons.mp hm' with he | he
              · cases he; exact ⟨by simp, by simp⟩
              · rcases List.mem_cons.mp he with he' | he'
                · simp at he'
                · exact ih (by rw [hsl]) m he'

/-! ## Poller-loop lemmas -/

theorem pollLoop_run (srcs : List String) (ms : Nat) :
    ∀ (pre : List TickEnv) (t : TickEnv) (post : List TickEnv),
    (∀ u ∈ pre, u.stopSet = false) → t.stopSet = true →
    pollLoop srcs ms (pre ++ t :: post) =
      (pre.map (fun u => [PollOp.write (sampleRecord srcs u), PollOp.sleep ms])).flatten
        ++ [PollOp.flush]
  | [], t, post, _, ht => by simp [pollLoop, ht]
  | u :: pre, t, post, hpre, ht => by
    have hu : u.stopSet = false := hpre u (by simp)
    have hrec := pollLoop_run srcs ms pre t post (fun v hv => hpre v (by simp [hv])) ht
    simp [pollLoop, hu, hrec]

theorem pollLoop_writes (srcs : List String) (ms : Nat) :
    ∀ (ticks : List TickEnv) (d : String),
    PollOp.write d ∈ pollLoop srcs ms ticks → ∃ t ∈ ticks, d = sampleRecord srcs t
  | [], d, h => by simp [pollLoop] at h
  | t :: rest, d, h => by
    cases hs : t.stopSet with
    | true => simp [pollLoop, hs] at h
    | false =>
      rw [show pollLoop srcs ms (t :: rest) =
          PollOp.write (sampleRecord srcs t) :: PollOp.sleep ms :: pollLoop srcs ms rest by
        simp [pollLoop, hs]] at h
      rcases List.mem_cons.mp h with he | he
      · injection he with h1
        exact ⟨t, by simp, h1⟩
      · rcases List.mem_cons.mp he with he' | he'
        · simp at he'
        · obtain ⟨u, hu1, hu2⟩ := pollLoop_writes srcs ms rest d he'
          exact ⟨u, by simp [hu1], hu2⟩

/-! ## The claims -/

/-- C1, counterexample: the claim that the next-id counter is advanced
only after all fallible preconditions have succeeded is false for spawn
requests.  With an OS environment in which `popen` fails, a background
`Spawn` on a fresh agent returns an error response, yet the counter has
advanced from 0 to 1: the failed request did consume resource id 1. -/
theorem C1_gapless_ids_counterexample :
    handle_message envAllFail (AgentState.new "out")
        (PmpptRequest.Spawn "mycmd" [] SpawnMode.BackgroundKill) =
      Except.ok
        (PmpptResponse.SpawnBg (Except.error "failed to spawn bg process: boom-bg"),
          { count := 1, outdir := "out", polls := [], procs := [] }) ∧
    (AgentState.new "out").count = 0 :=
  ⟨rfl, rfl⟩

/-- C1, amended: a `Poll` request whose pattern resolves to an empty
path list consumes no id (the state, counter included, is returned
unchanged); but for `Spawn` requests the id is allocated *before* the
fallible OS spawn call, so a failed foreground or background spawn
returns an error response while still consuming exactly one id — the
counter advances by one and the failed request leaves a gap in the id
sequence. -/
theorem C1_gapless_ids_amended (env : StepEnv) (s : AgentState)
    (pattern cmd : String) (args : List String) :
    ((env.resolve pattern).isEmpty = true →
      handle_message env s (PmpptRequest.Poll pattern) =
        Except.ok
          (PmpptResponse.Poll
            (Except.error ("got empty search result on expanding '" ++ pattern ++ "'")),
            s)) ∧
    (∀ e, env.bgPopen = Except.error e →
      ∀ mode, mode = SpawnMode.BackgroundWait ∨ mode = SpawnMode.BackgroundKill →
      handle_message env s (PmpptRequest.Spawn cmd args mode) =
        Except.ok
          (PmpptResponse.SpawnBg (Except.error ("failed to spawn bg process: " ++ e)),
            { s with count := s.count + 1 })) ∧
    (∀ e, env.fgJoin = Except.error e →
      handle_message env s (PmpptRequest.Spawn cmd args SpawnMode.Foreground) =
        Except.ok
          (PmpptResponse.SpawnFg (Except.error ("failed to spawn fg process: " ++ e)),
            { s with count := s.count + 1 })) := by
  refine ⟨handle_message_poll_empty, ?_, ?_⟩
  · intro e he mode hmode
    rcases hmode with rfl | rfl
    · rw [handle_message_bgwait, bg_popen_err he]
      rfl
    · rw [handle_message_bgkill, bg_popen_err he]
      rfl
  · intro e he
    rw [handle_message_fg, he]

/-- C1, witness for the amended theorem at a concrete failing
environment. -/
theorem C1_gapless_ids_witness :
    handle_message envAllFail (AgentState.new "o") (PmpptRequest.Poll "p") =
      Except.ok
        (PmpptResponse.Poll
          (Except.error "got empty search result on expanding 'p'"),
          AgentState.new "o") ∧
    handle_message envAllFail (AgentState.new "o")
        (PmpptRequest.Spawn "c" [] SpawnMode.BackgroundKill) =
      Except.ok
        (PmpptResponse.SpawnBg (Except.error "failed to spawn bg process: boom-bg"),
          { AgentState.new "o" with count := (AgentState.new "o").count + 1 }) ∧
    handle_message envAllFail (AgentState.new "o")
        (PmpptRequest.Spawn "c" [] SpawnMode.Foreground) =
      Except.ok
        (PmpptResponse.SpawnFg (Except.error "failed to spawn fg process: boom-fg"),
          { AgentState.new "o" with count := (AgentState.new "o").count + 1 }) := by
  obtain ⟨h1, h2, h3⟩ := C1_gapless_ids_amended envAllFail (AgentState.new "o") "p" "c" []
  exact ⟨h1 rfl, h2 "boom-bg" rfl SpawnMode.BackgroundKill (Or.inr rfl), h3 "boom-fg" rfl⟩

/-- C2: during shutdown of a well-formed agent, every tracked background
process receives a terminate signal if and only if its `wait4` flag is
false or the shutdown is abnormal, and in all cases the agent then
blocks until the process has exited (`popen.wait()` appears in the
trace).  Moreover the order is as the code performs it: the trace
decomposes around a contiguous block for this id that is
`[terminate, wait]` — terminate sent first, then the blocking wait —
when the policy says terminate, and just `[wait]` otherwise.  In
particular a `wait4` process is waited without terminate under graceful
shutdown but terminated-then-waited under abnormal shutdown. -/
theorem C2_shutdown_terminate_policy (s : AgentState) (ab : Bool) (i : Nat)
    (proc : ProcHandle) (hwf : WF s) (hp : lookupA s.procs i = some proc) :
    ∃ ev s', Agent.stop s ab = Except.ok (ev, s') ∧
      (StopEvent.terminate i ∈ ev ↔ (proc.wait4 = false ∨ ab = true)) ∧
      StopEvent.wait i ∈ ev ∧
      ∃ pre post, ev = pre ++
        (if proc.wait4 = false ∨ ab = true
          then [StopEvent.terminate i, StopEvent.wait i]
          else [StopEvent.wait i]) ++ post := by
  have hmemk : i ∈ keysA s.procs := mem_keysA_of_lookupA hp
  have hbound := hwf.2.1 _ hmemk
  have hl : lookupA s.polls i = none := by
    rw [lookupA_eq_none_iff]
    intro hmem
    exact hwf.2.2.1 _ hmem hmemk
  have hcond : ((!proc.wait4 || ab) = true) ↔ (proc.wait4 = false ∨ ab = true) := by
    simp [Bool.or_eq_true, Bool.not_eq_true']
  have hid : idEvents ab s i =
      (if proc.wait4 = false ∨ ab = true
        then [StopEvent.terminate i, StopEvent.wait i]
        else [StopEvent.wait i]) := by
    by_cases hc : proc.wait4 = false ∨ ab = true
    · have hb : (!proc.wait4 || ab) = true := hcond.mpr hc
      simp [idEvents, hp, hl, hb, hc]
    · have hb : ¬((!proc.wait4 || ab) = true) := fun hb' => hc (hcond.mp hb')
      rw [Bool.not_eq_true] at hb
      simp [idEvents, hp, hl, hb, hc]
  obtain ⟨pre, post, hblock⟩ := eventsDesc_block ab s i s.count hbound.1 hbound.2
  refine ⟨_, _, stop_spec ab hwf, ?_, ?_, pre, post, by rw [hblock, hid]⟩
  · constructor
    · intro hmem
      obtain ⟨j, h1, h2, h3⟩ := mem_eventsDesc.mp hmem
      have hj := rid_of_mem_idEvents h3
      have hij : j = i := by simpa [StopEvent.rid] using hj.symm
      subst hij
      rw [hid] at h3
      split at h3
      · assumption
      · simp at h3
    · intro hc
      apply mem_eventsDesc.mpr
      refine ⟨i, hbound.1, hbound.2, ?_⟩
      rw [hid]
      simp [hc]
  · apply mem_eventsDesc.mpr
    refine ⟨i, hbound.1, hbound.2, ?_⟩
    rw [hid]
    split <;> simp

/-- C2, witness: a concrete agent tracking two background processes
(id 1 with `wait4`, id 2 without), shut down gracefully: the
`wait4 = false` process id 2 is terminated first and then waited, as
one contiguous block of the trace. -/
theorem C2_shutdown_terminate_policy_witness :
    ∃ ev s', Agent.stop sTwoProcs false = Except.ok (ev, s') ∧
      (StopEvent.terminate 2 ∈ ev ↔ (false = false ∨ false = true)) ∧
      StopEvent.wait 2 ∈ ev ∧
      ∃ pre post, ev = pre ++
        (if (false = false ∨ false = true)
          then [StopEvent.terminate 2, StopEvent.wait 2]
          else [StopEvent.wait 2]) ++ post :=
  C2_shutdown_terminate_policy sTwoProcs false 2 { wait4 := false, name := "b" }
    (by decide) (by decide)

/-- C3: for any well-formed agent state, the shutdown event trace visits
resource ids in decreasing order — any event occurring before another
concerns an id at least as large, so distinct ids appear strictly
decreasing; concretely, with pollers 1, 2, 3 all live, shutdown tears
down 3, then 2, then 1. -/
theorem C3_reverse_teardown_order :
    (∀ (s : AgentState) (ab : Bool) (ev : List StopEvent) (s' : AgentState), WF s →
      Agent.stop s ab = Except.ok (ev, s') →
      List.Pairwise (fun a b => StopEvent.rid b ≤ StopEvent.rid a) ev) ∧
    Agent.stop sThreePolls false =
      Except.ok
        ([StopEvent.signalStop 3, StopEvent.join 3, StopEvent.signalStop 2,
          StopEvent.join 2, StopEvent.signalStop 1, StopEvent.join 1],
          { count := 3, outdir := "o", polls := [], procs := [] }) := by
  constructor
  · intro s ab ev s' hwf hstop
    rw [stop_spec ab hwf] at hstop
    simp only [Except.ok.injEq, Prod.mk.injEq] at hstop
    exact hstop.1 ▸ eventsDesc_rid_pairwise ab s s.count
  · decide

/-- C3, witness: the decreasing-id ordering instantiated on the concrete
three-poller shutdown trace. -/
theorem C3_reverse_teardown_order_witness :
    List.Pairwise (fun a b => StopEvent.rid b ≤ StopEvent.rid a)
      [StopEvent.signalStop 3, StopEvent.join 3, StopEvent.signalStop 2,
        StopEvent.join 2, StopEvent.signalStop 1, StopEvent.join 1] :=
  C3_reverse_teardown_order.1 sThreePolls false _ _ (by decide)
    C3_reverse_teardown_order.2

/-- C4: a `Poll` request whose pattern resolves to an empty path list
yields an error response and leaves the agent state — the next-id
counter, the poller map and the process map — exactly unchanged: no id
is allocated and no poller is registered. -/
theorem C4_poll_empty_match (env : StepEnv) (s : AgentState) (pattern : String)
    (hemp : (env.resolve pattern).isEmpty = true) :
    ∃ msg, handle_message env s (PmpptRequest.Poll pattern) =
      Except.ok (PmpptResponse.Poll (Except.error msg), s) :=
  ⟨_, handle_message_poll_empty hemp⟩

/-- C4, witness at a concrete empty-resolving environment. -/
theorem C4_poll_empty_match_witness :
    ∃ msg, handle_message envAllFail sTwoProcs (PmpptRequest.Poll "nothing") =
      Except.ok (PmpptResponse.Poll (Except.error msg), sTwoProcs) :=
  C4_poll_empty_match envAllFail sTwoProcs "nothing" rfl

/-- C5: in every reachable agent state no id appears in both the poller
map and the process map, so each allocated id maps to at most one live
resource; and when the shutdown scan does find both a process and a
poller under the same id (a corrupt, unreachable state), `Agent::stop`
fails with the fatal internal-consistency violation instead of tearing
anything down. -/
theorem C5_resource_exclusivity (s : AgentState) (h : Reachable s) :
    (∀ i, ¬(i ∈ keysA s.polls ∧ i ∈ keysA s.procs)) ∧
    Agent.stop sBothMaps false =
      Except.error "found both process and poller for id=1" := by
  constructor
  · intro i hpair
    exact (WF_of_Reachable h).2.2.1 _ hpair.1 hpair.2
  · decide

/-- C5, witness at the freshly constructed agent. -/
theorem C5_resource_exclusivity_witness :
    ¬(1 ∈ keysA (AgentState.new "o").polls ∧ 1 ∈ keysA (AgentState.new "o").procs) :=
  (C5_resource_exclusivity (AgentState.new "o") (Reachable.init "o")).1 1

/-- C6: shutting down a well-formed agent succeeds (the final
`assert!`s pass) and leaves both tracking maps empty; and for a corrupt
state whose poller map still holds an id that the countdown scan never
visits, `Agent::stop` fails on the emptiness assertion rather than
silently ignoring the leftover entry. -/
theorem C6_shutdown_empties_maps (s : AgentState) (ab : Bool) (hwf : WF s) :
    (∃ ev, Agent.stop s ab = Except.ok (ev, { s with polls := [], procs := [] })) ∧
    Agent.stop sLeftoverPoll false =
      Except.error "assertion failed: self.polls.is_empty()" :=
  ⟨⟨_, stop_spec ab hwf⟩, by decide⟩

/-- C6, witness: the two-process agent shuts down abnormally into empty
maps. -/
theorem C6_shutdown_empties_maps_witness :
    (∃ ev, Agent.stop sTwoProcs true =
      Except.ok (ev, { sTwoProcs with polls := [], procs := [] })) ∧
    Agent.stop sLeftoverPoll false =
      Except.error "assertion failed: self.polls.is_empty()" :=
  C6_shutdown_empties_maps sTwoProcs true (by decide)

/-- C7: a poller run whose stop flag is first observed set at the tick
after `pre` performs, per non-stop tick, exactly one destination write
(one whole record in a single write call) followed by a sleep of the
configured period; the tick that observes the stop flag exits the loop
with no sample taken (nothing from it or any later tick appears) and
the destination is flushed on exit.  Each record is the timestamp line,
the contents of every source file concatenated in list order, and the
trailing delimiter; the default period is 250 ms. -/
theorem C7_poller_tick_behaviour (srcs : List String) (pre : List TickEnv)
    (t : TickEnv) (post : List TickEnv)
    (hpre : ∀ u ∈ pre, u.stopSet = false) (ht : t.stopSet = true) :
    poll srcs (pre ++ t :: post) =
      PollOp.write (create_header srcs DEFAULT_SLEEP_TIME) :: PollOp.flush ::
        ((pre.map (fun u => [PollOp.write (sampleRecord srcs u),
          PollOp.sleep DEFAULT_SLEEP_TIME])).flatten ++ [PollOp.flush]) ∧
    (∀ u : TickEnv, sampleRecord srcs u =
      u.now ++ "\n" ++ String.join (srcs.map u.contents) ++ "\n") ∧
    DEFAULT_SLEEP_TIME = 250 := by
  refine ⟨?_, fun u => rfl, rfl⟩
  rw [poll, poll_with_config, pollLoop_run srcs DEFAULT_SLEEP_TIME pre t post hpre ht]

/-- C7, witness: one sampled tick followed by a stop tick. -/
theorem C7_poller_tick_behaviour_witness :
    poll ["f"] ([tickGo] ++ tickHalt :: []) =
      PollOp.write (create_header ["f"] DEFAULT_SLEEP_TIME) :: PollOp.flush ::
        (([tickGo].map (fun u => [PollOp.write (sampleRecord ["f"] u),
          PollOp.sleep DEFAULT_SLEEP_TIME])).flatten ++ [PollOp.flush]) :=
  (C7_poller_tick_behaviour ["f"] [tickGo] tickHalt []
    (fun u hu => by
      rw [List.mem_singleton.mp hu]
      rfl)
    rfl).1

/-- C8: every poller writes the single header line — the JSON encoding
of the resolved source paths and the sampling period — and flushes it
before anything else; every later write is a sample record of some
tick, so the header precedes the first sample regardless of how many
samples are taken. -/
theorem C8_header_before_samples (srcs : List String) (ms : Nat) (ticks : List TickEnv) :
    ∃ rest, poll_with_config srcs ms ticks =
        PollOp.write (create_header srcs ms) :: PollOp.flush :: rest ∧
      ∀ d, PollOp.write d ∈ rest → ∃ t ∈ ticks, d = sampleRecord srcs t :=
  ⟨_, rfl, fun d hd => pollLoop_writes srcs ms ticks d hd⟩

/-- C8, witness: the first two destination operations of a concrete run
are the header write and its flush. -/
theorem C8_header_before_samples_witness :
    (poll_with_config ["f"] 250 [tickGo, tickHalt]).take 2 =
      [PollOp.write (create_header ["f"] 250), PollOp.flush] := by
  obtain ⟨rest, h1, _⟩ := C8_header_before_samples ["f"] 250 [tickGo, tickHalt]
  rw [h1]
  rfl

/-- C9: in the serve loop, a failed receive (`None`) and an explicit
`Abort` both exit the loop with the abnormal flag set, `Finish` exits
with it clear; any other request is dispatched and its response sent
back before the loop receives again (the dispatch and send events
precede all later events); `Finish` and `Abort` are never dispatched;
and `Agent::serve` hands the loop's abnormal flag to `Agent::stop`. -/
theorem C9_serve_loop_triggers :
    (∀ (s : AgentState) (env : StepEnv) (rest : List (Option PmpptRequest × StepEnv)),
      serveLoop s ((none, env) :: rest) = Except.ok (some (true, [], s))) ∧
    (∀ (s : AgentState) (env : StepEnv) (rest : List (Option PmpptRequest × StepEnv)),
      serveLoop s ((some PmpptRequest.Abort, env) :: rest) =
        Except.ok (some (true, [], s))) ∧
    (∀ (s : AgentState) (env : StepEnv) (rest : List (Option PmpptRequest × StepEnv)),
      serveLoop s ((some PmpptRequest.Finish, env) :: rest) =
        Except.ok (some (false, [], s))) ∧
    (∀ (s : AgentState) (env : StepEnv) (rest : List (Option PmpptRequest × StepEnv))
      (msg : PmpptRequest) (resp : PmpptResponse) (s' : AgentState),
      handle_message env s msg = Except.ok (resp, s') →
      serveLoop s ((some msg, env) :: rest) =
        (serveLoop s' rest).map
          (Option.map (fun t =>
            (t.1, ServeEvent.dispatch msg :: ServeEvent.send resp :: t.2.1, t.2.2)))) ∧
    (∀ (s : AgentState) (inputs : List (Option PmpptRequest × StepEnv)) (b : Bool)
      (evs : List ServeEvent) (s' : AgentState),
      serveLoop s inputs = Except.ok (some (b, evs, s')) →
      ∀ m, ServeEvent.dispatch m ∈ evs →
        m ≠ PmpptRequest.Finish ∧ m ≠ PmpptRequest.Abort) ∧
    (∀ (s : AgentState) (inputs : List (Option PmpptRequest × StepEnv)) (b : Bool)
      (evs : List ServeEvent) (s' : AgentState),
      serveLoop s inputs = Except.ok (some (b, evs, s')) →
      Agent.serve s inputs =
        (match Agent.stop s' b with
         | Except.error e => Except.error e
         | Except.ok r => Except.ok (some (b, evs, r.1, r.2)))) := by
  refine ⟨fun s env rest => rfl, fun s env rest => rfl, fun s env rest => rfl, ?_, ?_, ?_⟩
  · intro s env rest msg resp s' hm
    have h1 : msg ≠ PmpptRequest.Finish := by
      rintro rfl
      simp [handle_message] at hm
    have h2 : msg ≠ PmpptRequest.Abort := by
      rintro rfl
      simp [handle_message] at hm
    rw [serveLoop_cons_nonterminal h1 h2, hm]
  · intro s inputs b evs s' h
    exact serveLoop_no_terminal_dispatch h
  · intro s inputs b evs s' h
    rw [Agent.serve, h]

/-- C9, witness: an abort input on the fresh agent exits the loop with
the abnormal flag. -/
theorem C9_serve_loop_triggers_witness :
    serveLoop (AgentState.new "o") [(some PmpptRequest.Abort, envAllOk)] =
      Except.ok (some (true, [], AgentState.new "o")) :=
  C9_serve_loop_triggers.2.1 (AgentState.new "o") envAllOk []

/-- C10: in the local replay transport, whenever `send_response` is
handed a response carrying an error payload — `Poll(Err)`,
`SpawnFg(Err)` or `SpawnBg(Err)` — an `Abort` request is pushed onto
the queue, so the next `recv_request` returns `Abort`: in local mode a
request-scoped error escalates to an abnormal shutdown of the whole
agent. -/
theorem C10_local_error_escalates (p : LocalProtocol) (resp : PmpptResponse)
    (h : responseIsError resp = true) :
    (LocalProtocol.recv_request (LocalProtocol.send_response p resp).2).1 =
      some PmpptRequest.Abort := by
  cases resp with
  | Poll r =>
    cases r with
    | error e => rfl
    | ok v => simp [responseIsError] at h
  | SpawnFg r =>
    cases r with
    | error e => rfl
    | ok v => simp [responseIsError] at h
  | SpawnBg r =>
    cases r with
    | error e => rfl
    | ok v => simp [responseIsError] at h

/-- C10, witness: a concrete failed poll response on an empty queue. -/
theorem C10_local_error_escalates_witness :
    (LocalProtocol.recv_request
        (LocalProtocol.send_response { requests := [], current := none }
          (PmpptResponse.Poll (Except.error "e"))).2).1 =
      some PmpptRequest.Abort :=
  C10_local_error_escalates { requests := [], current := none }
    (PmpptResponse.Poll (Except.error "e")) rfl

end Pmppt








